import Mathlib

/-!
# Verification of the repository-analysis statistics and data-reduction pipeline

Shallow embedding of the statistics engine (`lib/analytics`:
`calculateStatistics`, `getPercentileRepos`), the worker implementations
(`lib/dataWorker.js`), the synchronous fallbacks (`hooks/useWebWorker.ts`),
the histogram pipeline (`processHistogramData`, `applyScaling`) and the
data-reduction layer (`lib/dataOptimization.ts`: `downsampleLTTB`,
`deduplicatePoints`).

JavaScript numbers are idealized as rationals (`ℚ`); `NaN` is kept as a
distinct number-typed value (`typeof NaN === 'number'` in JavaScript, so the
`typeof v === 'number'` tests must see it). `Math.sqrt` is treated as an
uninterpreted parameter `sq : ℚ → ℚ` threaded through the definitions;
theorems that depend on properties of the square root take those properties
as explicit hypotheses (e.g. `sq 0 = 0`).

A JavaScript runtime error (indexing an array with `NaN` and then
dereferencing `undefined`) is modelled by `Option`: `none` is a thrown
`TypeError`.
-/

/-- A dynamically-typed JavaScript value as stored in a parsed CSV record. -/
inductive JSVal where
  | num (q : ℚ)
  | nan
  | str (s : String)
  | bool (b : Bool)
  | undef
deriving DecidableEq

/-- A parsed CSV row: a flat mapping of field names to values, accessed
dynamically (`(row as any)[column]` in the source). -/
abbrev RecordRow : Type := List (String × JSVal)

/-- Dynamic field access `row[column]`; a missing field reads as `undefined`. -/
def getField (row : RecordRow) (column : String) : JSVal :=
  (row.lookup column).getD JSVal.undef

/-- `typeof val === 'number' && !isNaN(val)`: true exactly on genuine
(finite) numbers; `NaN` is number-typed but fails `!isNaN`. -/
def jsFiniteNumber? : JSVal → Option ℚ
  | JSVal.num q => some q
  | _ => none

/-- `data.map(row => row[column]).filter(val => typeof val === 'number' && !isNaN(val))`
— the value extraction of `calculateStatistics` in `lib/analytics`
(CommitVsCollaboratorScatter.tsx bundle, line 622).  Note: no `val >= 0`
conjunct in this copy. -/
def analyticsValues (data : List RecordRow) (column : String) : List ℚ :=
  data.filterMap (fun row => jsFiniteNumber? (getField row column))

/-- `.filter(val => typeof val === 'number' && !isNaN(val) && val >= 0)` —
the value extraction of the worker's `calculateStatistics`
(dataWorker.js lines 38-41). -/
def workerValues (data : List RecordRow) (column : String) : List ℚ :=
  data.filterMap (fun row => match jsFiniteNumber? (getField row column) with
    | some q => if 0 ≤ q then some q else none
    | none => none)

/-- The value extraction of `calculateStatisticsSync` (useWebWorker.ts lines
141-144); textually identical to the worker's filter. -/
def syncValues (data : List RecordRow) (column : String) : List ℚ :=
  data.filterMap (fun row => match jsFiniteNumber? (getField row column) with
    | some q => if 0 ≤ q then some q else none
    | none => none)

/-- `values.sort((a, b) => a - b)`: ascending numeric sort. -/
def sortAsc (l : List ℚ) : List ℚ := List.insertionSort (· ≤ ·) l

/-- JavaScript `Math.round`: round half toward positive infinity. -/
def jsRound (q : ℚ) : ℤ := ⌊q + 1/2⌋

/-- `Math.round(x * 100) / 100`: rounding to two decimal places. -/
def round2 (q : ℚ) : ℚ := (jsRound (q * 100) : ℚ) / 100

/-- The statistical summary record of `types/repository.ts`. -/
structure StatisticalSummary where
  count : ℕ
  mean : ℚ
  std : ℚ
  min : ℚ
  max : ℚ
  p25 : ℚ
  p50 : ℚ
  p75 : ℚ
deriving DecidableEq

/-- The all-zero summary returned for an empty sample set. -/
def zeroSummary : StatisticalSummary :=
  { count := 0, mean := 0, std := 0, min := 0, max := 0, p25 := 0, p50 := 0, p75 := 0 }

/-- The body shared (verbatim) by all three `calculateStatistics` copies once
the filtered values are in hand, in the `lib/analytics` shape (emptiness
check on the unsorted filtered values, then an in-place ascending sort):

```
if (values.length === 0) { return {count:0, ...}; }
values.sort((a, b) => a - b);
const count = values.length;
const mean = values.reduce((sum, val) => sum + val, 0) / count;
const variance = values.reduce((sum, val) => sum + Math.pow(val - mean, 2), 0) / count;
const std = Math.sqrt(variance);
const getPercentile = (p) => {
  const index = Math.ceil(count * p / 100) - 1;
  return values[Math.max(0, Math.min(index, count - 1))];
};
return { count, mean: Math.round(mean*100)/100, std: Math.round(std*100)/100,
         min: values[0], max: values[count-1],
         p25: getPercentile(25), p50: getPercentile(50), p75: getPercentile(75) };
```
-/
def statsOfValues (sq : ℚ → ℚ) (values0 : List ℚ) : StatisticalSummary :=
  if values0.isEmpty then zeroSummary
  else
    let values := sortAsc values0
    let count := values.length
    let mean := values.sum / (count : ℚ)
    let variance := (values.map (fun val => (val - mean) ^ 2)).sum / (count : ℚ)
    let std := sq variance
    let getPercentile : ℚ → ℚ := fun p =>
      let index : ℤ := ⌈(count : ℚ) * p / 100⌉ - 1
      values.getD (max 0 (min index ((count : ℤ) - 1))).toNat 0
    { count := count, mean := round2 mean, std := round2 std,
      min := values.getD 0 0, max := values.getD (count - 1) 0,
      p25 := getPercentile 25, p50 := getPercentile 50, p75 := getPercentile 75 }

/-- The worker/sync shape of the same body: those copies sort the filtered
values first (`.filter(...).sort((a, b) => a - b)`) and then check
`values.length === 0`. -/
def workerStatsOfValues (sq : ℚ → ℚ) (values0 : List ℚ) : StatisticalSummary :=
  let values := sortAsc values0
  if values.isEmpty then zeroSummary
  else
    let count := values.length
    let mean := values.sum / (count : ℚ)
    let variance := (values.map (fun val => (val - mean) ^ 2)).sum / (count : ℚ)
    let std := sq variance
    let getPercentile : ℚ → ℚ := fun p =>
      let index : ℤ := ⌈(count : ℚ) * p / 100⌉ - 1
      values.getD (max 0 (min index ((count : ℤ) - 1))).toNat 0
    { count := count, mean := round2 mean, std := round2 std,
      min := values.getD 0 0, max := values.getD (count - 1) 0,
      p25 := getPercentile 25, p50 := getPercentile 50, p75 := getPercentile 75 }

/-- `calculateStatistics(data, column)` from `lib/analytics`
(CommitVsCollaboratorScatter.tsx bundle, lines 621-650). -/
def calculateStatistics (sq : ℚ → ℚ) (data : List RecordRow) (column : String) :
    StatisticalSummary :=
  statsOfValues sq (analyticsValues data column)

/-- `calculateStatistics(data, column)` from the worker `lib/dataWorker.js`
(lines 37-78). -/
def workerCalculateStatistics (sq : ℚ → ℚ) (data : List RecordRow) (column : String) :
    StatisticalSummary :=
  workerStatsOfValues sq (workerValues data column)

/-- `calculateStatisticsSync(data, column)` from `hooks/useWebWorker.ts`
(lines 140-181), the main-thread fallback used when the worker fails. -/
def calculateStatisticsSync (sq : ℚ → ℚ) (data : List RecordRow) (column : String) :
    StatisticalSummary :=
  workerStatsOfValues sq (syncValues data column)

-- Sanity: the spec's concrete scenario, values 1..10 (all non-negative, so
-- every implementation agrees): mean 5.5, p50 (nearest-rank, index 4) = 5.
example :
    (workerCalculateStatistics id
      [[("f", JSVal.num 1)], [("f", JSVal.num 2)], [("f", JSVal.num 3)],
       [("f", JSVal.num 4)], [("f", JSVal.num 5)], [("f", JSVal.num 6)],
       [("f", JSVal.num 7)], [("f", JSVal.num 8)], [("f", JSVal.num 9)],
       [("f", JSVal.num 10)]] "f").mean = 11/2 := by
  norm_num [workerCalculateStatistics, workerStatsOfValues, workerValues, sortAsc,
    getField, jsFiniteNumber?, round2, jsRound, List.insertionSort, List.orderedInsert]

example :
    (calculateStatistics id
      [[("f", JSVal.num 1)], [("f", JSVal.num 2)], [("f", JSVal.num 3)],
       [("f", JSVal.num 4)], [("f", JSVal.num 5)], [("f", JSVal.num 6)],
       [("f", JSVal.num 7)], [("f", JSVal.num 8)], [("f", JSVal.num 9)],
       [("f", JSVal.num 10)]] "f").p50 = 5 := by
  have h : analyticsValues
      [[("f", JSVal.num 1)], [("f", JSVal.num 2)], [("f", JSVal.num 3)],
       [("f", JSVal.num 4)], [("f", JSVal.num 5)], [("f", JSVal.num 6)],
       [("f", JSVal.num 7)], [("f", JSVal.num 8)], [("f", JSVal.num 9)],
       [("f", JSVal.num 10)]] "f" = [1,2,3,4,5,6,7,8,9,10] := by decide
  rw [calculateStatistics, h]
  norm_num [statsOfValues, sortAsc, List.insertionSort, List.orderedInsert]
  decide

/-! ## Percentile selector (`getPercentileRepos`, lib/analytics lines 652-665) -/

/-- `a.Repo_Size_mb` as a number.  `getPercentileRepos` reads this typed field;
the theorems about it assume the field actually holds a number (the CSV
ingester coerces it with `parseFloat(...) || 0`), which makes the fallback
value irrelevant. -/
def repoSizeMb (row : RecordRow) : ℚ :=
  (jsFiniteNumber? (getField row "Repo_Size_mb")).getD 0

/-- The `PercentileRepo` result record of `types/repository.ts`. -/
structure PercentileRepo where
  repo : RecordRow
  percentile : ℚ
  size : ℚ
deriving DecidableEq

/-- `[...data].sort((a, b) => a.Repo_Size_mb - b.Repo_Size_mb)`: ascending
sort of the records by size. -/
def sortBySize (data : List RecordRow) : List RecordRow :=
  List.insertionSort (fun a b => repoSizeMb a ≤ repoSizeMb b) data

/-- `getPercentileRepos(data, percentiles)` from `lib/analytics`
(CommitVsCollaboratorScatter.tsx bundle, lines 652-665). -/
def getPercentileRepos (data : List RecordRow) (percentiles : List ℚ) :
    List PercentileRepo :=
  let sortedData := sortBySize data
  let count := sortedData.length
  percentiles.map (fun p =>
    let index : ℤ := ⌈(count : ℚ) * p / 100⌉ - 1
    let repo := sortedData.getD (max 0 (min index ((count : ℤ) - 1))).toNat []
    { repo := repo, percentile := p, size := repoSizeMb repo })

/-- The nearest-rank index as the spec words it: `ceil(n*p/100) - 1`,
clamped to `[0, n-1]`. -/
def specNearestRankIndex (n : ℕ) (p : ℚ) : ℕ :=
  (min (max (⌈(n : ℚ) * p / 100⌉ - 1) 0) ((n : ℤ) - 1)).toNat

/-! ## Scaling transform (`applyScaling`)

The same function appears twice, textually identical: in `Histogram.tsx`
(lines 45-72) and in `lib/dataWorker.js` (lines 180-207); this definition
embeds both. -/

inductive ScalingMethod where
  | none
  | minmax
  | zscore
  | robust
deriving DecidableEq

/-- `Math.min(...values)` for a non-empty list (the callers guard against
empty input; JavaScript would yield `Infinity` on an empty spread). -/
def listMin : List ℚ → ℚ
  | [] => 0
  | h :: t => t.foldl min h

/-- `Math.max(...values)` for a non-empty list. -/
def listMax : List ℚ → ℚ
  | [] => 0
  | h :: t => t.foldl max h

/-- `applyScaling(values, method)`. -/
def applyScaling (sq : ℚ → ℚ) (values : List ℚ) (method : ScalingMethod) : List ℚ :=
  match method with
  | ScalingMethod.none => values
  | ScalingMethod.minmax =>
      let mn := listMin values
      let mx := listMax values
      let range := mx - mn
      if range = 0 then values else values.map (fun v => (v - mn) / range)
  | ScalingMethod.zscore =>
      let mean := values.sum / (values.length : ℚ)
      let variance := (values.map (fun v => (v - mean) ^ 2)).sum / (values.length : ℚ)
      let std := sq variance
      if std = 0 then values else values.map (fun v => (v - mean) / std)
  | ScalingMethod.robust =>
      let sorted := sortAsc values
      let q1 := sorted.getD (sorted.length / 4) 0
      let q3 := sorted.getD (3 * sorted.length / 4) 0
      let iqr := q3 - q1
      let median := sorted.getD (sorted.length / 2) 0
      if iqr = 0 then values else values.map (fun v => (v - median) / iqr)

/-! ## Histogram pipeline (`processHistogramData`, dataWorker.js lines 107-178)

The binning core (bin construction, the two counting loops and the
percentage pass) is textually identical in `Histogram.tsx`'s
`generateHistogramData` (lines 100-127); the worker version is embedded as
it is the complete standalone function.

`range`/`scaledRange` display strings (`toFixed` renderings of
`start`/`end`) are omitted; every other field of the bin object is kept. -/

structure HistogramBin where
  originalCount : ℕ
  scaledCount : ℕ
  percentage : ℚ
  binStart : ℚ
  binEnd : ℚ
  scaledStart : ℚ
  scaledEnd : ℚ
deriving DecidableEq

/-- The JavaScript bin index `Math.min(Math.floor((value - min) / binWidth), binCount - 1)`,
with IEEE semantics for a zero `binWidth` made explicit:
`0/0` is `NaN` (and `Math.min(NaN, c) = NaN`), a positive numerator gives
`Infinity` (clamped by `Math.min` to `binCount - 1`), a negative numerator
gives `-Infinity`.  `none` stands for an index (`NaN` or `-Infinity`) that is
not a valid array index. -/
def jsBinIndex (value mn binWidth : ℚ) (binCount : ℕ) : Option ℤ :=
  if binWidth = 0 then
    if value - mn = 0 then none
    else if 0 < value - mn then some ((binCount : ℤ) - 1)
    else none
  else some (min ⌊(value - mn) / binWidth⌋ ((binCount : ℤ) - 1))

/-- Replace the element at index `i` by `f` of it (used for the
`bins[binIndex].originalCount++` updates). -/
def bumpAt (f : HistogramBin → HistogramBin) : List HistogramBin → ℕ → List HistogramBin
  | [], _ => []
  | b :: bs, 0 => f b :: bs
  | b :: bs, n + 1 => b :: bumpAt f bs n

/-- The first counting loop:
`rawValues.forEach(v => { const binIndex = ...; bins[binIndex].originalCount++; })`.
An out-of-range or `NaN` index makes `bins[binIndex]` `undefined` and the
`++` throw a `TypeError`, modelled by `none`. -/
def countOriginal (mn binWidth : ℚ) (binCount : ℕ) :
    List HistogramBin → List ℚ → Option (List HistogramBin)
  | bins, [] => some bins
  | bins, v :: vs =>
    match jsBinIndex v mn binWidth binCount with
    | some i =>
        if 0 ≤ i ∧ i < (binCount : ℤ) then
          countOriginal mn binWidth binCount
            (bumpAt (fun b => { b with originalCount := b.originalCount + 1 }) bins i.toNat) vs
        else none
    | none => none

/-- The second counting loop (scaled values), which is guarded:
`if (binIndex >= 0 && binIndex < binCount) { bins[binIndex].scaledCount++; }`;
a `NaN`/out-of-range index is silently skipped. -/
def countScaled (mn binWidth : ℚ) (binCount : ℕ) :
    List HistogramBin → List ℚ → List HistogramBin
  | bins, [] => bins
  | bins, v :: vs =>
    match jsBinIndex v mn binWidth binCount with
    | some i =>
        if 0 ≤ i ∧ i < (binCount : ℤ) then
          countScaled mn binWidth binCount
            (bumpAt (fun b => { b with scaledCount := b.scaledCount + 1 }) bins i.toNat) vs
        else countScaled mn binWidth binCount bins vs
    | none => countScaled mn binWidth binCount bins vs

/-- `processHistogramData(data, config)` from `lib/dataWorker.js`
(lines 107-178).  `binCount` arrives in `config` (the UI computes it with a
bin-count policy, always ≥ 5).  The embedding is faithful for
`binCount ≥ 1`; `binCount = 0` would produce an `Infinity`/`NaN` bin width
in JavaScript, unreachable from the policies. -/
def processHistogramData (sq : ℚ → ℚ) (data : List RecordRow) (column : String)
    (scalingMethod : ScalingMethod) (binCount : ℕ) : Option (List HistogramBin) :=
  let rawValues := workerValues data column
  if rawValues.isEmpty then some []
  else
    let scaledValues := applyScaling sq rawValues scalingMethod
    let originalSorted := sortAsc rawValues
    let mn := originalSorted.getD 0 0
    let mx := originalSorted.getD (originalSorted.length - 1) 0
    let scaledSorted := sortAsc scaledValues
    let scaledMn := scaledSorted.getD 0 0
    let scaledMx := scaledSorted.getD (scaledSorted.length - 1) 0
    let binWidth := (mx - mn) / (binCount : ℚ)
    let scaledBinWidth :=
      if scalingMethod ≠ ScalingMethod.none then (scaledMx - scaledMn) / (binCount : ℚ)
      else binWidth
    let bins := (List.range binCount).map (fun (i : ℕ) =>
      let originalStart := mn + (i : ℚ) * binWidth
      let originalEnd := mn + (i + 1) * binWidth
      let scaledStart :=
        if scalingMethod ≠ ScalingMethod.none then scaledMn + i * scaledBinWidth
        else originalStart
      let scaledEnd :=
        if scalingMethod ≠ ScalingMethod.none then scaledMn + (i + 1) * scaledBinWidth
        else originalEnd
      { originalCount := 0, scaledCount := 0, percentage := 0,
        binStart := originalStart, binEnd := originalEnd,
        scaledStart := scaledStart, scaledEnd := scaledEnd })
    (countOriginal mn binWidth binCount bins rawValues).map (fun bins1 =>
      let bins2 :=
        if scalingMethod ≠ ScalingMethod.none then
          countScaled scaledMn scaledBinWidth binCount bins1 scaledValues
        else bins1.map (fun b => { b with scaledCount := b.originalCount })
      let totalCount := rawValues.length
      bins2.map (fun b =>
        { b with percentage := (b.originalCount : ℚ) / (totalCount : ℚ) * 100 }))

/-! ## Data reduction layer (`lib/dataOptimization.ts`) -/

/-- A scatter point.  The source's `DataPoint` carries arbitrary extra
payload fields (`[key: string]: any`); `tag` stands for that payload so that
distinct input points stay distinguishable. -/
structure DataPoint where
  x : ℚ
  y : ℚ
  tag : ℕ := 0
deriving DecidableEq

/-- The triangle-area expression of the LTTB inner loop:
`Math.abs((prev.x - avgX) * (p.y - prev.y) - (prev.x - p.x) * (avgY - prev.y)) * 0.5`. -/
def triangleArea (prev : DataPoint) (avgX avgY : ℚ) (p : DataPoint) : ℚ :=
  |(prev.x - avgX) * (p.y - prev.y) - (prev.x - p.x) * (avgY - prev.y)| * (1/2)

/-- `for (let j = rangeStart; j < rangeEnd && j < data.length; j++)`:
the indices the two inner loops actually visit. -/
def bucketIndices (data : List DataPoint) (rangeStart rangeEnd : ℕ) : List ℕ :=
  List.range' rangeStart (min rangeEnd data.length - rangeStart)

/-- The inner selection loop of `downsampleLTTB`: starting from
`maxArea = -1; maxAreaIndex = rangeStart`, keep the index of the strictly
largest triangle area. -/
def maxAreaIndex (data : List DataPoint) (prev : DataPoint) (avgX avgY : ℚ)
    (rangeStart rangeEnd : ℕ) : ℕ :=
  ((bucketIndices data rangeStart rangeEnd).foldl
    (fun best j =>
      let area := triangleArea prev avgX avgY (data.getD j ⟨0, 0, 0⟩)
      if best.2 < area then (j, area) else best)
    (rangeStart, (-1 : ℚ))).1

/-- One pass of the `for (let i = 1; i < targetPoints - 1; i++)` loop of
`downsampleLTTB`, iterated `iters` times with the running `bucketIndex` and
the previously selected point.  Note that the averaging range
(`avgRangeStart`/`avgRangeEnd`) and the selection range
(`rangeStart`/`rangeEnd`) are computed by the same expressions
`Math.floor(bucketIndex * bucketSize) + 1` / `Math.floor((bucketIndex + 1) * bucketSize) + 1`
— the source averages the bucket it selects from. -/
def lttbLoop (data : List DataPoint) (bucketSize : ℚ) :
    DataPoint → ℕ → ℕ → List DataPoint
  | _, _, 0 => []
  | prev, bucketIndex, iters + 1 =>
    let avgRangeStart := (⌊(bucketIndex : ℚ) * bucketSize⌋).toNat + 1
    let avgRangeEnd := (⌊((bucketIndex : ℚ) + 1) * bucketSize⌋).toNat + 1
    let avgRangeLength : ℚ := (avgRangeEnd : ℚ) - (avgRangeStart : ℚ)
    let pts := (bucketIndices data avgRangeStart avgRangeEnd).map
      (fun j => data.getD j ⟨0, 0, 0⟩)
    let avgX := (pts.map DataPoint.x).sum / avgRangeLength
    let avgY := (pts.map DataPoint.y).sum / avgRangeLength
    let rangeStart := (⌊(bucketIndex : ℚ) * bucketSize⌋).toNat + 1
    let rangeEnd := (⌊((bucketIndex : ℚ) + 1) * bucketSize⌋).toNat + 1
    let selected := data.getD (maxAreaIndex data prev avgX avgY rangeStart rangeEnd) ⟨0, 0, 0⟩
    selected :: lttbLoop data bucketSize selected (bucketIndex + 1) iters

/-- `downsampleLTTB(data, targetPoints)` from `lib/dataOptimization.ts`
(lines 13-69). -/
def downsampleLTTB (data : List DataPoint) (targetPoints : ℕ) : List DataPoint :=
  if data.length ≤ targetPoints ∨ targetPoints < 3 then data
  else
    let bucketSize : ℚ := ((data.length : ℚ) - 2) / ((targetPoints : ℚ) - 2)
    let first := data.getD 0 ⟨0, 0, 0⟩
    (first :: lttbLoop data bucketSize first 0 (targetPoints - 2))
      ++ [data.getD (data.length - 1) ⟨0, 0, 0⟩]

/-- Modelled from the spec: the LTTB bucket average that §4.5 (and the
source's own inline comment `// Calculate average point for next bucket`)
describe — the average of the points of the bucket *following* the current
one (range `[floor((bucketIndex+1)*bucketSize)+1, floor((bucketIndex+2)*bucketSize)+1)`,
clamped to the data length), while the selection still scans the current
bucket. -/
def lttbLoopNextBucket (data : List DataPoint) (bucketSize : ℚ) :
    DataPoint → ℕ → ℕ → List DataPoint
  | _, _, 0 => []
  | prev, bucketIndex, iters + 1 =>
    let avgRangeStart := (⌊((bucketIndex : ℚ) + 1) * bucketSize⌋).toNat + 1
    let avgRangeEnd := min ((⌊((bucketIndex : ℚ) + 2) * bucketSize⌋).toNat + 1) data.length
    let pts := (bucketIndices data avgRangeStart avgRangeEnd).map
      (fun j => data.getD j ⟨0, 0, 0⟩)
    let avgX := (pts.map DataPoint.x).sum / (pts.length : ℚ)
    let avgY := (pts.map DataPoint.y).sum / (pts.length : ℚ)
    let rangeStart := (⌊(bucketIndex : ℚ) * bucketSize⌋).toNat + 1
    let rangeEnd := (⌊((bucketIndex : ℚ) + 1) * bucketSize⌋).toNat + 1
    let selected := data.getD (maxAreaIndex data prev avgX avgY rangeStart rangeEnd) ⟨0, 0, 0⟩
    selected :: lttbLoopNextBucket data bucketSize selected (bucketIndex + 1) iters

/-- Modelled from the spec: `downsampleLTTB` as §4.5 describes it, differing
from the source only in which bucket is averaged. -/
def downsampleLTTBNextBucket (data : List DataPoint) (targetPoints : ℕ) : List DataPoint :=
  if data.length ≤ targetPoints ∨ targetPoints < 3 then data
  else
    let bucketSize : ℚ := ((data.length : ℚ) - 2) / ((targetPoints : ℚ) - 2)
    let first := data.getD 0 ⟨0, 0, 0⟩
    (first :: lttbLoopNextBucket data bucketSize first 0 (targetPoints - 2))
      ++ [data.getD (data.length - 1) ⟨0, 0, 0⟩]

/-- The body of `deduplicatePoints`' outer loop: compute
`isDuplicate` by scanning every already-kept point (the inner `for...of`
with `break` is the `any`), then `deduplicated.push(current)` unless a
kept point is closer than the tolerance. -/
def dedupStep (sq : ℚ → ℚ) (tolerance : ℚ) (dedup : List DataPoint)
    (current : DataPoint) : List DataPoint :=
  let isDup := dedup.any (fun existing =>
    decide (sq ((current.x - existing.x) ^ 2 + (current.y - existing.y) ^ 2) < tolerance))
  if isDup then dedup else dedup ++ [current]

/-- `deduplicatePoints(data, tolerance)`; the function appears twice,
textually identical: in `lib/dataOptimization.ts` (lines 163-192) and in
`lib/dataWorker.js` (lines 209-235).  The kept list starts as `[data[0]]`
and the loop from index 1 runs `dedupStep` on each later point. -/
def deduplicatePoints (sq : ℚ → ℚ) (data : List DataPoint) (tolerance : ℚ) :
    List DataPoint :=
  match data with
  | [] => []
  | d0 :: rest => rest.foldl (dedupStep sq tolerance) [d0]

/-! ## Helper lemmas about the ascending sort -/

lemma sortAsc_perm (l : List ℚ) : List.Perm (sortAsc l) l :=
  List.perm_insertionSort _ l

lemma sortAsc_sorted (l : List ℚ) : List.Sorted (· ≤ ·) (sortAsc l) :=
  List.sorted_insertionSort _ l

lemma sortAsc_length (l : List ℚ) : (sortAsc l).length = l.length :=
  (sortAsc_perm l).length_eq

lemma sortAsc_sum (l : List ℚ) : (sortAsc l).sum = l.sum :=
  (sortAsc_perm l).sum_eq

lemma sortAsc_map_sum (f : ℚ → ℚ) (l : List ℚ) :
    ((sortAsc l).map f).sum = (l.map f).sum :=
  ((sortAsc_perm l).map f).sum_eq

lemma sortAsc_mem (x : ℚ) (l : List ℚ) : x ∈ sortAsc l ↔ x ∈ l :=
  (sortAsc_perm l).mem_iff

lemma sortAsc_ne_nil {l : List ℚ} (h : l ≠ []) : sortAsc l ≠ [] := by
  intro hs
  exact h (List.length_eq_zero.mp ((sortAsc_length l).symm.trans (by rw [hs]; rfl)))

lemma sortAsc_isEmpty (l : List ℚ) : (sortAsc l).isEmpty = l.isEmpty := by
  rcases l with _ | ⟨a, t⟩
  · rfl
  · have h := sortAsc_ne_nil (l := a :: t) (by simp)
    rcases hs : sortAsc (a :: t) with _ | ⟨b, u⟩
    · exact absurd hs h
    · rfl

lemma getD_mem {l : List ℚ} {i : ℕ} (h : i < l.length) : l.getD i 0 ∈ l := by
  rw [List.getD_eq_getElem l 0 h]
  exact List.getElem_mem h

/-- The head of the ascending sort is a least element of the list. -/
lemma sortAsc_head_min {l : List ℚ} (h : l ≠ []) :
    (sortAsc l).getD 0 0 ∈ l ∧ ∀ x ∈ l, (sortAsc l).getD 0 0 ≤ x := by
  rcases hs : sortAsc l with _ | ⟨b, u⟩
  · exact absurd hs (sortAsc_ne_nil h)
  · have hsor := sortAsc_sorted l
    rw [hs] at hsor
    have hmem : b ∈ sortAsc l := by rw [hs]; exact List.mem_cons_self b u
    refine ⟨(sortAsc_mem b l).mp hmem, ?_⟩
    intro x hx
    have hx' : x ∈ sortAsc l := (sortAsc_mem x l).mpr hx
    rw [hs] at hx'
    rcases List.mem_cons.mp hx' with hxe | hxu
    · exact le_of_eq hxe.symm
    · exact List.rel_of_sorted_cons hsor x hxu

/-- Every element of a `≤`-sorted list is at most its last element. -/
lemma sorted_le_last : ∀ (l : List ℚ), List.Sorted (· ≤ ·) l →
    ∀ x ∈ l, x ≤ l.getD (l.length - 1) 0
  | [], _, x, hx => absurd hx (List.not_mem_nil x)
  | [a], _, x, hx => by
      rcases List.mem_singleton.mp hx with rfl
      exact le_of_eq rfl
  | a :: b :: t, hsor, x, hx => by
      have htail : List.Sorted (· ≤ ·) (b :: t) := hsor.of_cons
      have hlen : (a :: b :: t).length - 1 = (b :: t).length := by simp
      have hstep : (a :: b :: t).getD ((a :: b :: t).length - 1) 0
          = (b :: t).getD ((b :: t).length - 1) 0 := by
        rw [hlen]
        show (a :: b :: t).getD ((b :: t).length - 1 + 1) 0 = _
        rfl
      rw [hstep]
      rcases List.mem_cons.mp hx with rfl | hxt
      · have hb : b ≤ (b :: t).getD ((b :: t).length - 1) 0 :=
          sorted_le_last (b :: t) htail b (List.mem_cons_self b t)
        exact le_trans (List.rel_of_sorted_cons hsor b (List.mem_cons_self b t)) hb
      · exact sorted_le_last (b :: t) htail x hxt

/-- The last entry of the ascending sort is a greatest element of the list,
and a member. -/
lemma sortAsc_last_max {l : List ℚ} (h : l ≠ []) :
    (sortAsc l).getD ((sortAsc l).length - 1) 0 ∈ l ∧
      ∀ x ∈ l, x ≤ (sortAsc l).getD ((sortAsc l).length - 1) 0 := by
  have hne := sortAsc_ne_nil h
  have hlen : (sortAsc l).length - 1 < (sortAsc l).length := by
    have : 0 < (sortAsc l).length := List.length_pos.mpr hne
    omega
  refine ⟨(sortAsc_mem _ l).mp (getD_mem hlen), ?_⟩
  intro x hx
  exact sorted_le_last (sortAsc l) (sortAsc_sorted l) x ((sortAsc_mem x l).mpr hx)

/-- The two textual shapes of the statistics body agree. -/
lemma workerStatsOfValues_eq (sq : ℚ → ℚ) (v : List ℚ) :
    workerStatsOfValues sq v = statsOfValues sq v := by
  simp only [workerStatsOfValues, statsOfValues, sortAsc_isEmpty]

/-- The worker filter is the analytics filter plus the non-negativity test. -/
lemma workerValues_eq_filter (data : List RecordRow) (column : String) :
    workerValues data column
      = (analyticsValues data column).filter (fun q => decide (0 ≤ q)) := by
  induction data with
  | nil => rfl
  | cons r rows ih =>
    simp only [workerValues, analyticsValues, List.filterMap_cons] at *
    rcases h : jsFiniteNumber? (getField r column) with _ | q
    · simpa [h] using ih
    · by_cases hq : 0 ≤ q
      · simpa [h, hq, List.filter_cons] using ih
      · simpa [h, hq, List.filter_cons] using ih

lemma syncValues_eq_workerValues (data : List RecordRow) (column : String) :
    syncValues data column = workerValues data column := rfl

/-! ## C9: empty sample set gives the all-zero summary -/

/-- C9: `computeStatistics` applied to an empty record collection, or to one
with zero valid values for the requested field, returns the all-zero summary
`{count: 0, mean: 0, std: 0, min: 0, max: 0, p25: 0, p50: 0, p75: 0}` (and,
being a total function, throws no exception), on all three implementations.
An empty collection is the special case `data = []` of a collection with no
valid values. -/
theorem c9_empty_zero_summary :
    (∀ (sq : ℚ → ℚ) (data : List RecordRow) (column : String),
        analyticsValues data column = [] →
        calculateStatistics sq data column =
          { count := 0, mean := 0, std := 0, min := 0, max := 0,
            p25 := 0, p50 := 0, p75 := 0 })
    ∧ (∀ (sq : ℚ → ℚ) (data : List RecordRow) (column : String),
        workerValues data column = [] →
        workerCalculateStatistics sq data column =
          { count := 0, mean := 0, std := 0, min := 0, max := 0,
            p25 := 0, p50 := 0, p75 := 0 })
    ∧ (∀ (sq : ℚ → ℚ) (data : List RecordRow) (column : String),
        syncValues data column = [] →
        calculateStatisticsSync sq data column =
          { count := 0, mean := 0, std := 0, min := 0, max := 0,
            p25 := 0, p50 := 0, p75 := 0 }) := by
  refine ⟨?_, ?_, ?_⟩ <;> intro sq data column h <;>
    simp [calculateStatistics, workerCalculateStatistics, calculateStatisticsSync,
      workerStatsOfValues_eq, statsOfValues, h, zeroSummary]

/-- Witness for C9 at the empty collection. -/
theorem c9_empty_zero_summary_witness :
    analyticsValues [] "Repo_Size_mb" = [] ∧
    calculateStatistics id [] "Repo_Size_mb" =
      { count := 0, mean := 0, std := 0, min := 0, max := 0,
        p25 := 0, p50 := 0, p75 := 0 } ∧
    workerCalculateStatistics id [] "Repo_Size_mb" =
      { count := 0, mean := 0, std := 0, min := 0, max := 0,
        p25 := 0, p50 := 0, p75 := 0 } :=
  ⟨rfl, c9_empty_zero_summary.1 id [] "Repo_Size_mb" rfl,
    c9_empty_zero_summary.2.1 id [] "Repo_Size_mb" rfl⟩

/-! ## C2: worker path versus synchronous main-thread path -/

/-- C2 counterexample: on a record whose field value is `-1`, the worker
implementation (which filters out negative values) and the main-thread
`lib/analytics` implementation (which does not) return different summaries:
count 0 versus count 1. -/
theorem c2_paths_counterexample :
    workerCalculateStatistics id [[("f", JSVal.num (-1))]] "f" ≠
      calculateStatistics id [[("f", JSVal.num (-1))]] "f" := by
  intro h
  have hw : workerValues [[("f", JSVal.num (-1))]] "f" = [] := by decide
  have ha : analyticsValues [[("f", JSVal.num (-1))]] "f" = [-1] := by decide
  have hc := congrArg StatisticalSummary.count h
  rw [workerCalculateStatistics, calculateStatistics, workerStatsOfValues_eq,
    hw, ha] at hc
  simp [statsOfValues, sortAsc, List.insertionSort, List.orderedInsert, zeroSummary] at hc

/-- C2 amended: the background-worker implementation and the dedicated
synchronous fallback `calculateStatisticsSync` agree on every input; the
main-thread `lib/analytics` implementation agrees with them whenever no
negative numeric value reaches the field filter (its only divergence is the
missing `val >= 0` conjunct). -/
theorem c2_paths_amended :
    (∀ (sq : ℚ → ℚ) (data : List RecordRow) (column : String),
        workerCalculateStatistics sq data column =
          calculateStatisticsSync sq data column)
    ∧ (∀ (sq : ℚ → ℚ) (data : List RecordRow) (column : String),
        (∀ q ∈ analyticsValues data column, 0 ≤ q) →
        workerCalculateStatistics sq data column =
          calculateStatistics sq data column) := by
  constructor
  · intro sq data column
    rfl
  · intro sq data column hpos
    rw [workerCalculateStatistics, calculateStatistics, workerStatsOfValues_eq,
      workerValues_eq_filter, List.filter_eq_self.mpr (fun a ha => by
        simpa using hpos a ha)]

/-- Witness for C2 (amended) on an all-non-negative input. -/
theorem c2_paths_amended_witness :
    (∀ q ∈ analyticsValues [[("f", JSVal.num 2)], [("f", JSVal.num 7)]] "f", 0 ≤ q) ∧
    workerCalculateStatistics id [[("f", JSVal.num 2)], [("f", JSVal.num 7)]] "f" =
      calculateStatistics id [[("f", JSVal.num 2)], [("f", JSVal.num 7)]] "f" :=
  ⟨by decide, c2_paths_amended.2 id [[("f", JSVal.num 2)], [("f", JSVal.num 7)]] "f" (by decide)⟩

/-! ## C3: what the value filters exclude -/

/-- C3 counterexample: the `lib/analytics` `calculateStatistics` does *not*
exclude negative values — on a record with field value `-1` the value
survives the filter and is counted (`count = 1`, `min = -1`), contradicting
"negative values ... are all excluded" for that implementation. -/
theorem c3_filter_counterexample :
    analyticsValues [[("f", JSVal.num (-1))]] "f" = [-1] ∧
    (calculateStatistics id [[("f", JSVal.num (-1))]] "f").count = 1 := by
  have ha : analyticsValues [[("f", JSVal.num (-1))]] "f" = [-1] := by decide
  refine ⟨ha, ?_⟩
  rw [calculateStatistics, ha]
  decide

/-- C3 amended: the worker path (and the identical sync fallback) filters to
finite non-negative numbers — it is exactly the analytics filter composed
with the `0 ≤ q` test, so every value it keeps is non-negative; the
analytics filter keeps every genuine number (including negative ones) and
silently drops `NaN` and non-numeric entries; all three are total functions
(no error is raised). -/
theorem c3_filter_amended :
    (∀ (data : List RecordRow) (column : String),
        workerValues data column
          = (analyticsValues data column).filter (fun q => decide (0 ≤ q)))
    ∧ (∀ (data : List RecordRow) (column : String),
        syncValues data column = workerValues data column)
    ∧ (∀ (data : List RecordRow) (column : String) (q : ℚ),
        q ∈ workerValues data column → 0 ≤ q)
    ∧ (∀ (r : RecordRow) (rows : List RecordRow) (column : String),
        jsFiniteNumber? (getField r column) = none →
        analyticsValues (r :: rows) column = analyticsValues rows column)
    ∧ (∀ (r : RecordRow) (rows : List RecordRow) (column : String) (q : ℚ),
        getField r column = JSVal.num q →
        analyticsValues (r :: rows) column = q :: analyticsValues rows column) := by
  refine ⟨workerValues_eq_filter, fun _ _ => rfl, ?_, ?_, ?_⟩
  · intro data column q hq
    rw [workerValues_eq_filter] at hq
    simpa using (List.mem_filter.mp hq).2
  · intro r rows column h
    simp [analyticsValues, List.filterMap_cons, h]
  · intro r rows column q h
    simp [analyticsValues, List.filterMap_cons, h, jsFiniteNumber?]

/-- Witness for C3 (amended): a dirty row mix — a number, a negative number,
a `NaN`, a string and a missing field. -/
theorem c3_filter_amended_witness :
    workerValues
        [[("f", JSVal.num 3)], [("f", JSVal.num (-2))], [("f", JSVal.nan)],
         [("f", JSVal.str "x")], []] "f"
      = (analyticsValues
          [[("f", JSVal.num 3)], [("f", JSVal.num (-2))], [("f", JSVal.nan)],
           [("f", JSVal.str "x")], []] "f").filter (fun q => decide (0 ≤ q)) ∧
    jsFiniteNumber? (getField [("f", JSVal.nan)] "f") = none ∧
    analyticsValues [[("f", JSVal.nan)], [("f", JSVal.num 3)]] "f"
      = analyticsValues [[("f", JSVal.num 3)]] "f" ∧
    getField [("f", JSVal.num (-2))] "f" = JSVal.num (-2) ∧
    analyticsValues [[("f", JSVal.num (-2))], [("f", JSVal.num 3)]] "f"
      = -2 :: analyticsValues [[("f", JSVal.num 3)]] "f" :=
  ⟨c3_filter_amended.1 _ "f",
   by decide,
   c3_filter_amended.2.2.2.1 [("f", JSVal.nan)] [[("f", JSVal.num 3)]] "f" (by decide),
   by decide,
   c3_filter_amended.2.2.2.2 [("f", JSVal.num (-2))] [[("f", JSVal.num 3)]] "f" (-2) (by decide)⟩

/-! ## C10 / C1: the summary fields -/

/-- Population mean: sum divided by N. -/
def popMean (v : List ℚ) : ℚ := v.sum / (v.length : ℚ)

/-- Population variance: mean squared deviation, divided by N (not N-1). -/
def popVariance (v : List ℚ) : ℚ :=
  (v.map (fun x => (x - popMean v) ^ 2)).sum / (v.length : ℚ)

/-- The code's clamp `Math.max(0, Math.min(index, n-1))` agrees with the
spec's "clamped to [0, n-1]" reading `min (max index 0) (n-1)` as soon as
the sample is non-empty. -/
lemma clampIndex_eq {n : ℕ} (hn : 1 ≤ n) (i : ℤ) :
    (max 0 (min i ((n : ℤ) - 1))).toNat = (min (max i 0) ((n : ℤ) - 1)).toNat := by
  omega

lemma specNearestRankIndex_lt {n : ℕ} (hn : 1 ≤ n) (p : ℚ) :
    specNearestRankIndex n p < n := by
  unfold specNearestRankIndex
  omega

/-- The spec-side description of the summary of a non-empty valid sample
`v`: `count`/`min`/`max` and the three percentile fields are exact sample
values (min and max characterized as least/greatest members, the
percentiles as nearest-rank entries of the ascending sort), while `mean`
and `std` are the population mean and the (host-square-root) population
standard deviation, each rounded to two decimals with
`Math.round(x*100)/100`. -/
def SummarySpec (sq : ℚ → ℚ) (v : List ℚ) (s : StatisticalSummary) : Prop :=
  s.count = v.length ∧
  s.mean = round2 (popMean v) ∧
  s.std = round2 (sq (popVariance v)) ∧
  (s.min ∈ v ∧ ∀ x ∈ v, s.min ≤ x) ∧
  (s.max ∈ v ∧ ∀ x ∈ v, x ≤ s.max) ∧
  (s.p25 = (sortAsc v).getD (specNearestRankIndex v.length 25) 0 ∧ s.p25 ∈ v) ∧
  (s.p50 = (sortAsc v).getD (specNearestRankIndex v.length 50) 0 ∧ s.p50 ∈ v) ∧
  (s.p75 = (sortAsc v).getD (specNearestRankIndex v.length 75) 0 ∧ s.p75 ∈ v)

lemma isEmpty_false_of_ne_nil {v : List ℚ} (hv : v ≠ []) : v.isEmpty = false := by
  rcases v with _ | ⟨a, t⟩
  · exact absurd rfl hv
  · rfl

/-- A percentile entry of the sorted sample, at the code's clamped index,
is the nearest-rank entry and a member of the sample. -/
lemma percentile_entry (v : List ℚ) (hv : v ≠ []) (p : ℚ) :
    (sortAsc v).getD
        (max 0 (min (⌈((sortAsc v).length : ℚ) * p / 100⌉ - 1)
          (((sortAsc v).length : ℤ) - 1))).toNat 0
      = (sortAsc v).getD (specNearestRankIndex v.length p) 0 ∧
    (sortAsc v).getD (specNearestRankIndex v.length p) 0 ∈ v := by
  have hn : 1 ≤ v.length := List.length_pos.mpr hv
  have hlen := sortAsc_length v
  constructor
  · rw [hlen, clampIndex_eq hn]
    rfl
  · have hi : specNearestRankIndex v.length p < (sortAsc v).length := by
      rw [hlen]; exact specNearestRankIndex_lt hn p
    exact (sortAsc_mem _ v).mp (getD_mem hi)

/-- The shared statistics body meets the summary spec on non-empty input. -/
lemma statsOfValues_summarySpec (sq : ℚ → ℚ) (v : List ℚ) (hv : v ≠ []) :
    SummarySpec sq v (statsOfValues sq v) := by
  have hE := isEmpty_false_of_ne_nil hv
  unfold SummarySpec
  simp only [statsOfValues, hE, Bool.false_eq_true, if_false]
  refine ⟨sortAsc_length v, ?_, ?_, ?_, ?_, ?_, ?_, ?_⟩
  · rw [sortAsc_sum, sortAsc_length]; rfl
  · rw [sortAsc_sum, sortAsc_length, sortAsc_map_sum]; rfl
  · exact sortAsc_head_min hv
  · exact sortAsc_last_max hv
  · obtain ⟨h1, h2⟩ := percentile_entry v hv 25
    exact ⟨h1, by rw [h1]; exact h2⟩
  · obtain ⟨h1, h2⟩ := percentile_entry v hv 50
    exact ⟨h1, by rw [h1]; exact h2⟩
  · obtain ⟨h1, h2⟩ := percentile_entry v hv 75
    exact ⟨h1, by rw [h1]; exact h2⟩

lemma sortBySize_length (data : List RecordRow) :
    (sortBySize data).length = data.length :=
  (List.perm_insertionSort _ data).length_eq

/-- C10: on every record collection with at least one valid value for the
requested field, each of the three implementations returns a summary whose
`mean` and `std` are the population mean and population standard deviation
rounded to two decimal places (`Math.round(x*100)/100`, here `round2`),
while `count`, `min`, `max` and the percentile fields are exact un-rounded
sample values (see `SummarySpec`). -/
theorem c10_summary_fields :
    (∀ (sq : ℚ → ℚ) (data : List RecordRow) (column : String),
        analyticsValues data column ≠ [] →
        SummarySpec sq (analyticsValues data column) (calculateStatistics sq data column))
    ∧ (∀ (sq : ℚ → ℚ) (data : List RecordRow) (column : String),
        workerValues data column ≠ [] →
        SummarySpec sq (workerValues data column) (workerCalculateStatistics sq data column))
    ∧ (∀ (sq : ℚ → ℚ) (data : List RecordRow) (column : String),
        syncValues data column ≠ [] →
        SummarySpec sq (syncValues data column) (calculateStatisticsSync sq data column)) := by
  refine ⟨?_, ?_, ?_⟩
  · intro sq data column hv
    exact statsOfValues_summarySpec sq _ hv
  · intro sq data column hv
    rw [workerCalculateStatistics, workerStatsOfValues_eq]
    exact statsOfValues_summarySpec sq _ hv
  · intro sq data column hv
    rw [calculateStatisticsSync, workerStatsOfValues_eq]
    exact statsOfValues_summarySpec sq _ hv

/-- Witness for C10 on a two-value sample. -/
theorem c10_summary_fields_witness :
    analyticsValues [[("f", JSVal.num 1)], [("f", JSVal.num 3)]] "f" ≠ [] ∧
    SummarySpec id (analyticsValues [[("f", JSVal.num 1)], [("f", JSVal.num 3)]] "f")
      (calculateStatistics id [[("f", JSVal.num 1)], [("f", JSVal.num 3)]] "f") :=
  ⟨by decide, c10_summary_fields.1 id [[("f", JSVal.num 1)], [("f", JSVal.num 3)]] "f" (by decide)⟩

/-- C1: for every non-empty valid sample, the percentile fields of the
statistics engine are the entries of the ascending-sorted values at the
nearest-rank index `ceil(n*p/100) - 1` clamped to `[0, n-1]`
(`specNearestRankIndex`, no interpolation), the percentile selector
`getPercentileRepos` returns, for every requested percentile, the record of
the size-ascending sort at that same index, and over `n = 100` records the
index for P10 is 9 and for P90 is 89. -/
theorem c1_nearest_rank_percentiles :
    (∀ (sq : ℚ → ℚ) (data : List RecordRow) (column : String),
        analyticsValues data column ≠ [] →
        (calculateStatistics sq data column).p25
            = (sortAsc (analyticsValues data column)).getD
                (specNearestRankIndex (analyticsValues data column).length 25) 0 ∧
        (calculateStatistics sq data column).p50
            = (sortAsc (analyticsValues data column)).getD
                (specNearestRankIndex (analyticsValues data column).length 50) 0 ∧
        (calculateStatistics sq data column).p75
            = (sortAsc (analyticsValues data column)).getD
                (specNearestRankIndex (analyticsValues data column).length 75) 0)
    ∧ (∀ (data : List RecordRow) (ps : List ℚ), data ≠ [] →
        getPercentileRepos data ps = ps.map (fun p =>
          { repo := (sortBySize data).getD (specNearestRankIndex data.length p) []
            percentile := p
            size := repoSizeMb
              ((sortBySize data).getD (specNearestRankIndex data.length p) []) }))
    ∧ specNearestRankIndex 100 10 = 9 ∧ specNearestRankIndex 100 90 = 89 := by
  refine ⟨?_, ?_, ?_, ?_⟩
  · intro sq data column hv
    obtain ⟨-, -, -, -, -, h25, h50, h75⟩ := statsOfValues_summarySpec sq _ hv
    exact ⟨h25.1, h50.1, h75.1⟩
  · intro data ps hd
    have hn : 1 ≤ data.length := List.length_pos.mpr hd
    simp only [getPercentileRepos]
    refine List.map_congr_left ?_
    intro p _
    rw [sortBySize_length, clampIndex_eq hn]
    rfl
  · norm_num [specNearestRankIndex]
    decide
  · norm_num [specNearestRankIndex]
    decide

/-- Witness for C1 on singleton inputs. -/
theorem c1_nearest_rank_percentiles_witness :
    analyticsValues [[("s", JSVal.num 4)]] "s" ≠ [] ∧
    (calculateStatistics id [[("s", JSVal.num 4)]] "s").p25
        = (sortAsc (analyticsValues [[("s", JSVal.num 4)]] "s")).getD
            (specNearestRankIndex (analyticsValues [[("s", JSVal.num 4)]] "s").length 25) 0 ∧
    ([[("Repo_Size_mb", JSVal.num 7)]] : List RecordRow) ≠ [] ∧
    getPercentileRepos [[("Repo_Size_mb", JSVal.num 7)]] [50] = [50].map (fun p =>
      { repo := (sortBySize [[("Repo_Size_mb", JSVal.num 7)]]).getD
          (specNearestRankIndex ([[("Repo_Size_mb", JSVal.num 7)]] : List RecordRow).length p) []
        percentile := p
        size := repoSizeMb ((sortBySize [[("Repo_Size_mb", JSVal.num 7)]]).getD
          (specNearestRankIndex ([[("Repo_Size_mb", JSVal.num 7)]] : List RecordRow).length p) []) }) :=
  ⟨by decide,
   (c1_nearest_rank_percentiles.1 id [[("s", JSVal.num 4)]] "s" (by decide)).1,
   by decide,
   c1_nearest_rank_percentiles.2.1 [[("Repo_Size_mb", JSVal.num 7)]] [50] (by decide)⟩

/-! ## C7: scaling a constant sequence -/

lemma foldl_min_const (c : ℚ) : ∀ (t : List ℚ), (∀ x ∈ t, x = c) → t.foldl min c = c
  | [], _ => rfl
  | a :: t, h => by
      have ha : a = c := h a (List.mem_cons_self a t)
      have ht : ∀ x ∈ t, x = c := fun x hx => h x (List.mem_cons_of_mem a hx)
      simp only [List.foldl_cons, ha, min_self]
      exact foldl_min_const c t ht

lemma foldl_max_const (c : ℚ) : ∀ (t : List ℚ), (∀ x ∈ t, x = c) → t.foldl max c = c
  | [], _ => rfl
  | a :: t, h => by
      have ha : a = c := h a (List.mem_cons_self a t)
      have ht : ∀ x ∈ t, x = c := fun x hx => h x (List.mem_cons_of_mem a hx)
      simp only [List.foldl_cons, ha, max_self]
      exact foldl_max_const c t ht

lemma listMin_eq_listMax_of_const {v : List ℚ} {c : ℚ} (h : ∀ x ∈ v, x = c) :
    listMin v = listMax v := by
  rcases v with _ | ⟨a, t⟩
  · rfl
  · have ha : a = c := h a (List.mem_cons_self a t)
    have ht : ∀ x ∈ t, x = c := fun x hx => h x (List.mem_cons_of_mem a hx)
    simp only [listMin, listMax, ha, foldl_min_const c t ht, foldl_max_const c t ht]

lemma const_sum {c : ℚ} : ∀ {v : List ℚ}, (∀ x ∈ v, x = c) → v.sum = (v.length : ℚ) * c
  | [], _ => by simp
  | a :: t, h => by
      have ha : a = c := h a (List.mem_cons_self a t)
      have ht : ∀ x ∈ t, x = c := fun x hx => h x (List.mem_cons_of_mem a hx)
      simp only [List.sum_cons, ha, const_sum ht, List.length_cons]
      push_cast
      ring

lemma getD_const {l : List ℚ} {c : ℚ} (h : ∀ x ∈ l, x = c) {i : ℕ}
    (hi : i < l.length) : l.getD i 0 = c :=
  h _ (getD_mem hi)

/-- C7: for every scaling method and every constant input sequence, `applyScaling`
returns the sequence unchanged.  (`sq 0 = 0` is `Math.sqrt(0) = 0`, used by the
z-score branch; since the output is the input itself, a list of genuine numbers,
it contains no NaN or Infinity.) -/
theorem c7_constant_scaling (sq : ℚ → ℚ) (method : ScalingMethod)
    (values : List ℚ) (c : ℚ) (hsq : sq 0 = 0) (hconst : ∀ x ∈ values, x = c) :
    applyScaling sq values method = values := by
  cases method with
  | none => rfl
  | minmax =>
      simp [applyScaling, listMin_eq_listMax_of_const hconst, sub_self]
  | zscore =>
      rcases values with _ | ⟨a, t⟩
      · simp [applyScaling, hsq]
      · have hlen : ((a :: t).length : ℚ) ≠ 0 :=
          Nat.cast_ne_zero.mpr (by simp)
        have hmean : (a :: t).sum / ((a :: t).length : ℚ) = c := by
          rw [const_sum hconst, mul_div_cancel_left₀ _ hlen]
        have hzero : ((a :: t).map (fun v => (v - (a :: t).sum / ((a :: t).length : ℚ)) ^ 2)).sum = 0 := by
          apply List.sum_eq_zero
          intro x hx
          obtain ⟨y, hy, rfl⟩ := List.mem_map.mp hx
          rw [hmean, hconst y hy, sub_self]
          ring
        simp only [applyScaling]
        rw [hzero, zero_div, hsq]
        exact if_pos rfl
  | robust =>
      rcases hv : values with _ | ⟨a, t⟩
      · simp [applyScaling, sortAsc, List.insertionSort]
      · rw [← hv]
        have hne : values ≠ [] := by rw [hv]; exact List.cons_ne_nil a t
        have hsc : ∀ x ∈ sortAsc values, x = c := fun x hx =>
          hconst x ((sortAsc_mem x values).mp hx)
        have hlen0 : 0 < (sortAsc values).length := by
          rw [sortAsc_length]
          exact List.length_pos.mpr hne
        have h1 : (sortAsc values).length / 4 < (sortAsc values).length :=
          Nat.div_lt_self hlen0 (by norm_num)
        have h3 : 3 * (sortAsc values).length / 4 < (sortAsc values).length := by
          rw [Nat.div_lt_iff_lt_mul (by norm_num : (0:ℕ) < 4)]
          omega
        have hq1 : (sortAsc values).getD ((sortAsc values).length / 4) 0 = c :=
          getD_const hsc h1
        have hq3 : (sortAsc values).getD (3 * (sortAsc values).length / 4) 0 = c :=
          getD_const hsc h3
        simp only [applyScaling]
        rw [hq1, hq3, sub_self]
        exact if_pos rfl

/-- Witness for C7: z-score scaling of the constant sequence `[2, 2]`. -/
theorem c7_constant_scaling_witness :
    (fun _ : ℚ => (0 : ℚ)) 0 = 0 ∧ (∀ x ∈ [(2 : ℚ), 2], x = 2) ∧
    applyScaling (fun _ => 0) [2, 2] ScalingMethod.zscore = [2, 2] :=
  ⟨rfl, by decide,
   c7_constant_scaling (fun _ => 0) ScalingMethod.zscore [2, 2] 2 rfl (by decide)⟩

/-! ## C8: deduplication invariants -/

lemma dedupStep_eq_or (sq : ℚ → ℚ) (tol : ℚ) (acc : List DataPoint) (c : DataPoint) :
    dedupStep sq tol acc c = acc ∨
    (dedupStep sq tol acc c = acc ++ [c] ∧
      ∀ p ∈ acc, ¬ sq ((c.x - p.x) ^ 2 + (c.y - p.y) ^ 2) < tol) := by
  unfold dedupStep
  by_cases h : acc.any (fun existing =>
      decide (sq ((c.x - existing.x) ^ 2 + (c.y - existing.y) ^ 2) < tol)) = true
  · left
    simp [h]
  · right
    refine ⟨by simp [h], ?_⟩
    rw [Bool.not_eq_true] at h
    simp only [List.any_eq_false, decide_eq_true_eq] at h
    exact h

lemma dedupFold_structure (sq : ℚ → ℚ) (tol : ℚ) :
    ∀ (rest acc : List DataPoint),
      ∃ e, List.foldl (dedupStep sq tol) acc rest = acc ++ e ∧ e.Sublist rest
  | [], acc => ⟨[], by simp, List.nil_sublist []⟩
  | c :: cs, acc => by
      rcases dedupStep_eq_or sq tol acc c with h | ⟨h, -⟩
      · obtain ⟨e, he, hs⟩ := dedupFold_structure sq tol cs acc
        exact ⟨e, by rw [List.foldl_cons, h]; exact he, hs.cons c⟩
      · obtain ⟨e, he, hs⟩ := dedupFold_structure sq tol cs (acc ++ [c])
        refine ⟨c :: e, ?_, hs.cons₂ c⟩
        rw [List.foldl_cons, h, he, List.append_assoc, List.singleton_append]

lemma dedupFold_pairwise (sq : ℚ → ℚ) (tol : ℚ) :
    ∀ (rest acc : List DataPoint),
      List.Pairwise (fun p q => ¬ sq ((q.x - p.x) ^ 2 + (q.y - p.y) ^ 2) < tol) acc →
      List.Pairwise (fun p q => ¬ sq ((q.x - p.x) ^ 2 + (q.y - p.y) ^ 2) < tol)
        (List.foldl (dedupStep sq tol) acc rest)
  | [], _, h => h
  | c :: cs, acc, h => by
      rcases dedupStep_eq_or sq tol acc c with hstep | ⟨hstep, hfar⟩
      · rw [List.foldl_cons, hstep]
        exact dedupFold_pairwise sq tol cs acc h
      · rw [List.foldl_cons, hstep]
        apply dedupFold_pairwise
        rw [List.pairwise_append]
        refine ⟨h, List.pairwise_singleton _ c, ?_⟩
        intro p hp b hb
        rcases List.mem_singleton.mp hb with rfl
        exact hfar p hp

/-- C8: for every input sequence and tolerance, `deduplicatePoints` returns
a subsequence of the input (every kept point is an input point, in original
order), no kept point is within the tolerance of an earlier kept point as
measured by the host square root `sq`, and — whenever `sq` behaves like a
square root against this tolerance (`sq a < tol ↔ a < tol²` on non-negative
inputs) — no two output points have squared Euclidean distance below
`tolerance²`. -/
theorem c8_dedup_invariants (sq : ℚ → ℚ) (data : List DataPoint) (tolerance : ℚ) :
    (deduplicatePoints sq data tolerance).Sublist data ∧
    List.Pairwise
      (fun p q => ¬ sq ((q.x - p.x) ^ 2 + (q.y - p.y) ^ 2) < tolerance)
      (deduplicatePoints sq data tolerance) ∧
    ((∀ a : ℚ, 0 ≤ a → (sq a < tolerance ↔ a < tolerance ^ 2)) →
      List.Pairwise
        (fun p q => ¬ (q.x - p.x) ^ 2 + (q.y - p.y) ^ 2 < tolerance ^ 2)
        (deduplicatePoints sq data tolerance)) := by
  rcases data with _ | ⟨d0, rest⟩
  · exact ⟨List.nil_sublist _, List.Pairwise.nil, fun _ => List.Pairwise.nil⟩
  · have hpw := dedupFold_pairwise sq tolerance rest [d0]
      (List.pairwise_singleton _ d0)
    obtain ⟨e, he, hs⟩ := dedupFold_structure sq tolerance rest [d0]
    refine ⟨?_, hpw, ?_⟩
    · show (List.foldl (dedupStep sq tolerance) [d0] rest).Sublist (d0 :: rest)
      rw [he, List.singleton_append]
      exact hs.cons₂ d0
    · intro hsq
      refine hpw.imp ?_
      intro p q hnot hlt
      exact hnot ((hsq _ (by positivity)).mpr hlt)

/-- Witness for C8 with `sq = id` and tolerance 1 (for which
`id a < 1 ↔ a < 1²` holds on all inputs). -/
theorem c8_dedup_invariants_witness :
    (deduplicatePoints id [⟨0, 0, 0⟩, ⟨0, 0, 1⟩, ⟨5, 5, 2⟩] 1).Sublist
        [⟨0, 0, 0⟩, ⟨0, 0, 1⟩, ⟨5, 5, 2⟩] ∧
    List.Pairwise
      (fun p q => ¬ (q.x - p.x) ^ 2 + (q.y - p.y) ^ 2 < (1 : ℚ) ^ 2)
      (deduplicatePoints id [⟨0, 0, 0⟩, ⟨0, 0, 1⟩, ⟨5, 5, 2⟩] 1) :=
  ⟨(c8_dedup_invariants id [⟨0, 0, 0⟩, ⟨0, 0, 1⟩, ⟨5, 5, 2⟩] 1).1,
   (c8_dedup_invariants id [⟨0, 0, 0⟩, ⟨0, 0, 1⟩, ⟨5, 5, 2⟩] 1).2.2
     (fun a _ => by rw [one_pow]; exact Iff.rfl)⟩

/-! ## C5: LTTB point count and endpoint preservation -/

lemma lttbLoop_length (data : List DataPoint) (bucketSize : ℚ) :
    ∀ (prev : DataPoint) (bucketIndex iters : ℕ),
      (lttbLoop data bucketSize prev bucketIndex iters).length = iters
  | _, _, 0 => rfl
  | prev, b, iters + 1 => by
      simp only [lttbLoop, List.length_cons]
      rw [lttbLoop_length data bucketSize _ _ iters]

lemma getLast?_eq_getD {l : List DataPoint} (h : l ≠ []) :
    l.getLast? = some (l.getD (l.length - 1) ⟨0, 0, 0⟩) := by
  have hlt : l.length - 1 < l.length := by
    have : 0 < l.length := List.length_pos.mpr h
    omega
  rw [List.getLast?_eq_getElem? l, List.getD_eq_getElem?_getD l _ _,
    List.getElem?_eq_getElem hlt]
  rfl

/-- C5: whenever the input is longer than the target and the target is at
least 3, `downsampleLTTB` returns exactly `targetPoints` points, whose first
and last points are exactly the first and last input points. -/
theorem c5_lttb_target_and_endpoints (data : List DataPoint) (targetPoints : ℕ)
    (h3 : 3 ≤ targetPoints) (hlen : targetPoints < data.length) :
    (downsampleLTTB data targetPoints).length = targetPoints ∧
    (downsampleLTTB data targetPoints).head? = data.head? ∧
    (downsampleLTTB data targetPoints).getLast? = data.getLast? := by
  have hguard : ¬ (data.length ≤ targetPoints ∨ targetPoints < 3) := by omega
  have hne : data ≠ [] := by
    intro h
    rw [h] at hlen
    simp at hlen
  unfold downsampleLTTB
  rw [if_neg hguard]
  refine ⟨?_, ?_, ?_⟩
  · simp only [List.length_append, List.length_cons, lttbLoop_length,
      List.length_singleton, List.length_nil]
    omega
  · rcases data with _ | ⟨a, t⟩
    · exact absurd rfl hne
    · rfl
  · rw [List.getLast?_concat, getLast?_eq_getD hne]

/-- Witness for C5 on four points downsampled to three. -/
theorem c5_lttb_target_and_endpoints_witness :
    3 ≤ 3 ∧ 3 < ([⟨0, 0, 0⟩, ⟨1, 4, 1⟩, ⟨2, 6, 2⟩, ⟨3, 0, 3⟩] : List DataPoint).length ∧
    (downsampleLTTB [⟨0, 0, 0⟩, ⟨1, 4, 1⟩, ⟨2, 6, 2⟩, ⟨3, 0, 3⟩] 3).length = 3 ∧
    (downsampleLTTB [⟨0, 0, 0⟩, ⟨1, 4, 1⟩, ⟨2, 6, 2⟩, ⟨3, 0, 3⟩] 3).head?
      = ([⟨0, 0, 0⟩, ⟨1, 4, 1⟩, ⟨2, 6, 2⟩, ⟨3, 0, 3⟩] : List DataPoint).head? ∧
    (downsampleLTTB [⟨0, 0, 0⟩, ⟨1, 4, 1⟩, ⟨2, 6, 2⟩, ⟨3, 0, 3⟩] 3).getLast?
      = ([⟨0, 0, 0⟩, ⟨1, 4, 1⟩, ⟨2, 6, 2⟩, ⟨3, 0, 3⟩] : List DataPoint).getLast? := by
  have h := c5_lttb_target_and_endpoints
    [⟨0, 0, 0⟩, ⟨1, 4, 1⟩, ⟨2, 6, 2⟩, ⟨3, 0, 3⟩] 3 (by decide) (by decide)
  exact ⟨by decide, by decide, h.1, h.2.1, h.2.2⟩

/-! ## C6: which bucket does LTTB average? -/

/-- C6 (divergence witness): `downsampleLTTB`'s averaging range is computed
from `bucketIndex` — the same expressions as its selection range — so it
averages the *current* bucket, although its own inline comment (and the
spec) say "average point for next bucket".  On the four input points below
with target 3, the two middle candidates form equal triangle areas against
the current-bucket average (which is their midpoint), so the source selects
`(1, 4)`; averaging the *next* bucket (the last point) selects `(2, 6)`
instead. -/
theorem c6_lttb_averages_current_bucket :
    downsampleLTTB [⟨0, 0, 0⟩, ⟨1, 4, 1⟩, ⟨2, 6, 2⟩, ⟨3, 0, 3⟩] 3
        = [⟨0, 0, 0⟩, ⟨1, 4, 1⟩, ⟨3, 0, 3⟩] ∧
    downsampleLTTBNextBucket [⟨0, 0, 0⟩, ⟨1, 4, 1⟩, ⟨2, 6, 2⟩, ⟨3, 0, 3⟩] 3
        = [⟨0, 0, 0⟩, ⟨2, 6, 2⟩, ⟨3, 0, 3⟩] ∧
    downsampleLTTB [⟨0, 0, 0⟩, ⟨1, 4, 1⟩, ⟨2, 6, 2⟩, ⟨3, 0, 3⟩] 3
        ≠ downsampleLTTBNextBucket [⟨0, 0, 0⟩, ⟨1, 4, 1⟩, ⟨2, 6, 2⟩, ⟨3, 0, 3⟩] 3 := by
  have h1 : downsampleLTTB [⟨0, 0, 0⟩, ⟨1, 4, 1⟩, ⟨2, 6, 2⟩, ⟨3, 0, 3⟩] 3
      = [⟨0, 0, 0⟩, ⟨1, 4, 1⟩, ⟨3, 0, 3⟩] := by
    norm_num [downsampleLTTB, lttbLoop, bucketIndices, maxAreaIndex, triangleArea,
      List.range', List.getD, List.foldl]
    simp
    norm_num
  have h2 : downsampleLTTBNextBucket [⟨0, 0, 0⟩, ⟨1, 4, 1⟩, ⟨2, 6, 2⟩, ⟨3, 0, 3⟩] 3
      = [⟨0, 0, 0⟩, ⟨2, 6, 2⟩, ⟨3, 0, 3⟩] := by
    norm_num [downsampleLTTBNextBucket, lttbLoopNextBucket, bucketIndices, maxAreaIndex,
      triangleArea, List.range', List.getD, List.foldl]
    simp
    norm_num
  refine ⟨h1, h2, ?_⟩
  rw [h1, h2]
  decide

/-! ## C4: histogram binning -/

/-- The minimum of the valid sample, as the histogram code computes it
(head of the ascending sort). -/
def histMin (data : List RecordRow) (column : String) : ℚ :=
  (sortAsc (workerValues data column)).getD 0 0

/-- The maximum of the valid sample, as the histogram code computes it
(last entry of the ascending sort). -/
def histMax (data : List RecordRow) (column : String) : ℚ :=
  (sortAsc (workerValues data column)).getD
    ((sortAsc (workerValues data column)).length - 1) 0

/-- `binWidth = (max - min) / binCount`. -/
def histBinWidth (data : List RecordRow) (column : String) (binCount : ℕ) : ℚ :=
  (histMax data column - histMin data column) / (binCount : ℚ)

lemma bumpAt_length (f : HistogramBin → HistogramBin) :
    ∀ (bins : List HistogramBin) (i : ℕ), (bumpAt f bins i).length = bins.length
  | [], _ => rfl
  | _ :: _, 0 => rfl
  | b :: bs, n + 1 => by
      simp only [bumpAt, List.length_cons, bumpAt_length f bs n]

lemma bumpAt_sum_originalCount :
    ∀ (bins : List HistogramBin) (i : ℕ), i < bins.length →
      ((bumpAt (fun b => { b with originalCount := b.originalCount + 1 }) bins i).map
          (fun b => b.originalCount)).sum
        = ((bins.map (fun b => b.originalCount)).sum) + 1
  | [], i, h => absurd h (by simp)
  | b :: bs, 0, _ => by
      simp only [bumpAt, List.map_cons, List.sum_cons]
      omega
  | b :: bs, n + 1, h => by
      simp only [bumpAt, List.map_cons, List.sum_cons]
      rw [bumpAt_sum_originalCount bs n (by simpa using h)]
      omega

lemma bumpAt_map_of_preserve {g : HistogramBin → ℕ} {f : HistogramBin → HistogramBin}
    (hfg : ∀ b, g (f b) = g b) :
    ∀ (bins : List HistogramBin) (i : ℕ), (bumpAt f bins i).map g = bins.map g
  | [], _ => rfl
  | b :: bs, 0 => by simp only [bumpAt, List.map_cons, hfg]
  | b :: bs, n + 1 => by
      simp only [bumpAt, List.map_cons, bumpAt_map_of_preserve hfg bs n]

lemma countOriginal_some (mn binWidth : ℚ) (binCount : ℕ) :
    ∀ (vals : List ℚ) (bins : List HistogramBin),
      bins.length = binCount →
      (∀ v ∈ vals, ∃ i : ℤ,
          jsBinIndex v mn binWidth binCount = some i ∧ 0 ≤ i ∧ i < (binCount : ℤ)) →
      ∃ bins2, countOriginal mn binWidth binCount bins vals = some bins2 ∧
        bins2.length = binCount ∧
        (bins2.map (fun b => b.originalCount)).sum
          = (bins.map (fun b => b.originalCount)).sum + vals.length
  | [], bins, hb, _ => ⟨bins, rfl, hb, by simp⟩
  | v :: vs, bins, hb, h => by
      obtain ⟨i, hi, h0, hlt⟩ := h v (List.mem_cons_self v vs)
      have hrest : ∀ w ∈ vs, ∃ i : ℤ,
          jsBinIndex w mn binWidth binCount = some i ∧ 0 ≤ i ∧ i < (binCount : ℤ) :=
        fun w hw => h w (List.mem_cons_of_mem v hw)
      have hlen' : (bumpAt (fun b => { b with originalCount := b.originalCount + 1 })
          bins i.toNat).length = binCount := by
        rw [bumpAt_length]; exact hb
      obtain ⟨bins2, hsome, hlen2, hsum⟩ :=
        countOriginal_some mn binWidth binCount vs _ hlen' hrest
      refine ⟨bins2, ?_, hlen2, ?_⟩
      · simp only [countOriginal, hi]
        rw [if_pos ⟨h0, hlt⟩]
        exact hsome
      · rw [hsum, bumpAt_sum_originalCount bins i.toNat (by omega)]
        simp only [List.length_cons]
        omega

lemma countScaled_length (mn binWidth : ℚ) (binCount : ℕ) :
    ∀ (vals : List ℚ) (bins : List HistogramBin),
      (countScaled mn binWidth binCount bins vals).length = bins.length
  | [], _ => rfl
  | v :: vs, bins => by
      cases hj : jsBinIndex v mn binWidth binCount with
      | none =>
          simp only [countScaled, hj]
          exact countScaled_length mn binWidth binCount vs bins
      | some i =>
          simp only [countScaled, hj]
          by_cases h : 0 ≤ i ∧ i < (binCount : ℤ)
          · rw [if_pos h, countScaled_length mn binWidth binCount vs _, bumpAt_length]
          · rw [if_neg h]
            exact countScaled_length mn binWidth binCount vs bins

lemma countScaled_map_originalCount (mn binWidth : ℚ) (binCount : ℕ) :
    ∀ (vals : List ℚ) (bins : List HistogramBin),
      (countScaled mn binWidth binCount bins vals).map (fun b => b.originalCount)
        = bins.map (fun b => b.originalCount)
  | [], _ => rfl
  | v :: vs, bins => by
      cases hj : jsBinIndex v mn binWidth binCount with
      | none =>
          simp only [countScaled, hj]
          exact countScaled_map_originalCount mn binWidth binCount vs bins
      | some i =>
          simp only [countScaled, hj]
          by_cases h : 0 ≤ i ∧ i < (binCount : ℤ)
          · rw [if_pos h, countScaled_map_originalCount mn binWidth binCount vs _,
              bumpAt_map_of_preserve (g := fun b => b.originalCount)
                (f := fun b => { b with scaledCount := b.scaledCount + 1 }) (fun b => rfl)]
          · rw [if_neg h]
            exact countScaled_map_originalCount mn binWidth binCount vs bins

lemma jsBinIndex_spec {mn binWidth v : ℚ} {binCount : ℕ} (hbc : 0 < binCount)
    (hw : 0 < binWidth) (hv : mn ≤ v) :
    jsBinIndex v mn binWidth binCount
        = some (min (max ⌊(v - mn) / binWidth⌋ 0) ((binCount : ℤ) - 1)) ∧
      0 ≤ min (max ⌊(v - mn) / binWidth⌋ 0) ((binCount : ℤ) - 1) ∧
      min (max ⌊(v - mn) / binWidth⌋ 0) ((binCount : ℤ) - 1) < (binCount : ℤ) := by
  have hfl : 0 ≤ ⌊(v - mn) / binWidth⌋ :=
    Int.floor_nonneg.mpr (div_nonneg (by linarith) hw.le)
  have hbc' : (1 : ℤ) ≤ (binCount : ℤ) := by exact_mod_cast hbc
  refine ⟨?_, by omega, by omega⟩
  rw [jsBinIndex, if_neg (ne_of_gt hw)]
  congr 1
  omega

/-- The scaled values the histogram code computes. -/
def histScaledValues (sq : ℚ → ℚ) (data : List RecordRow) (column : String)
    (method : ScalingMethod) : List ℚ :=
  applyScaling sq (workerValues data column) method

/-- Minimum of the scaled values (head of their ascending sort). -/
def histScaledMin (sq : ℚ → ℚ) (data : List RecordRow) (column : String)
    (method : ScalingMethod) : ℚ :=
  (sortAsc (histScaledValues sq data column method)).getD 0 0

/-- Maximum of the scaled values (last entry of their ascending sort). -/
def histScaledMax (sq : ℚ → ℚ) (data : List RecordRow) (column : String)
    (method : ScalingMethod) : ℚ :=
  (sortAsc (histScaledValues sq data column method)).getD
    ((sortAsc (histScaledValues sq data column method)).length - 1) 0

/-- The scaled bin width (falls back to the original bin width when no
scaling is active). -/
def histScaledBinWidth (sq : ℚ → ℚ) (data : List RecordRow) (column : String)
    (method : ScalingMethod) (binCount : ℕ) : ℚ :=
  if method ≠ ScalingMethod.none then
    (histScaledMax sq data column method - histScaledMin sq data column method)
      / (binCount : ℚ)
  else histBinWidth data column binCount

/-- The freshly initialized bins of `processHistogramData` (all counts 0). -/
def histBins0 (sq : ℚ → ℚ) (data : List RecordRow) (column : String)
    (method : ScalingMethod) (binCount : ℕ) : List HistogramBin :=
  (List.range binCount).map (fun (i : ℕ) =>
    let originalStart := histMin data column + (i : ℚ) * histBinWidth data column binCount
    let originalEnd := histMin data column + ((i : ℚ) + 1) * histBinWidth data column binCount
    let scaledStart :=
      if method ≠ ScalingMethod.none then
        histScaledMin sq data column method
          + (i : ℚ) * histScaledBinWidth sq data column method binCount
      else originalStart
    let scaledEnd :=
      if method ≠ ScalingMethod.none then
        histScaledMin sq data column method
          + ((i : ℚ) + 1) * histScaledBinWidth sq data column method binCount
      else originalEnd
    { originalCount := 0, scaledCount := 0, percentage := 0,
      binStart := originalStart, binEnd := originalEnd,
      scaledStart := scaledStart, scaledEnd := scaledEnd })

lemma sum_originalCount_mkBins (binCount : ℕ) (mk : ℕ → HistogramBin)
    (hmk : ∀ i, (mk i).originalCount = 0) :
    (((List.range binCount).map mk).map (fun b => b.originalCount)).sum = 0 := by
  rw [List.map_map]
  apply List.sum_eq_zero
  intro x hx
  obtain ⟨i, -, rfl⟩ := List.mem_map.mp hx
  exact hmk i

/-- The tail of `processHistogramData` after the bins are initialized:
the original-count loop succeeds and the bin count and total count are
preserved through the scaled-count pass and the percentage pass. -/
lemma processHistogram_tail (mn binWidth scaledMn scaledBinWidth : ℚ) (binCount : ℕ)
    (method : ScalingMethod) (raw scaled : List ℚ) (bins0 : List HistogramBin)
    (hB : bins0.length = binCount)
    (hz : (bins0.map (fun b => b.originalCount)).sum = 0)
    (hidx : ∀ v ∈ raw, ∃ i : ℤ,
        jsBinIndex v mn binWidth binCount = some i ∧ 0 ≤ i ∧ i < (binCount : ℤ)) :
    ∃ bins,
      ((countOriginal mn binWidth binCount bins0 raw).map (fun bins1 =>
          (if method ≠ ScalingMethod.none then
              countScaled scaledMn scaledBinWidth binCount bins1 scaled
            else bins1.map (fun b => { b with scaledCount := b.originalCount })).map
            (fun b => { b with percentage := (b.originalCount : ℚ) / (raw.length : ℚ) * 100 })))
        = some bins ∧
      bins.length = binCount ∧
      (bins.map (fun b => b.originalCount)).sum = raw.length := by
  obtain ⟨bins2, hsome, hlen2, hsum2⟩ :=
    countOriginal_some mn binWidth binCount raw bins0 hB hidx
  rw [hsome, Option.map_some']
  have hcomp : ((fun b : HistogramBin => b.originalCount) ∘
      (fun b => { b with percentage := (b.originalCount : ℚ) / (raw.length : ℚ) * 100 }))
        = fun b : HistogramBin => b.originalCount := funext fun b => rfl
  have hcomp2 : ((fun b : HistogramBin => b.originalCount) ∘
      (fun b : HistogramBin => { b with scaledCount := b.originalCount }))
        = fun b : HistogramBin => b.originalCount := funext fun b => rfl
  refine ⟨_, rfl, ?_, ?_⟩
  · by_cases hm : method ≠ ScalingMethod.none
    · rw [if_pos hm, List.length_map, countScaled_length, hlen2]
    · rw [if_neg hm, List.length_map, List.length_map, hlen2]
  · rw [List.map_map, hcomp]
    by_cases hm : method ≠ ScalingMethod.none
    · rw [if_pos hm, countScaled_map_originalCount, hsum2, hz]
      omega
    · rw [if_neg hm, List.map_map, hcomp2, hsum2, hz]
      omega

/-- `processHistogramData` on a non-empty valid sample, written
compositionally in the named quantities. -/
lemma processHistogramData_eq (sq : ℚ → ℚ) (data : List RecordRow) (column : String)
    (method : ScalingMethod) (binCount : ℕ)
    (h : (workerValues data column).isEmpty = false) :
    processHistogramData sq data column method binCount =
      (countOriginal (histMin data column) (histBinWidth data column binCount) binCount
          (histBins0 sq data column method binCount) (workerValues data column)).map
        (fun bins1 =>
          (if method ≠ ScalingMethod.none then
              countScaled (histScaledMin sq data column method)
                (histScaledBinWidth sq data column method binCount) binCount bins1
                (histScaledValues sq data column method)
            else bins1.map (fun b => { b with scaledCount := b.originalCount })).map
          (fun b => { b with percentage :=
            (b.originalCount : ℚ) / ((workerValues data column).length : ℚ) * 100 })) := by
  simp only [processHistogramData, h, Bool.false_eq_true, if_false]
  rfl

/-- C4 amended: provided the valid sample contains two distinct values (so
that `binWidth > 0`; with all values equal the code divides zero by zero and
crashes on a `NaN` bin index — see the counterexample), the histogram
computation succeeds, produces `binCount` bins whose `originalCount`s sum to
the number of valid values, and assigns each valid value the bin index
`floor((value - min)/binWidth)` clamped to `[0, binCount-1]`. -/
theorem c4_histogram_amended (sq : ℚ → ℚ) (data : List RecordRow) (column : String)
    (scalingMethod : ScalingMethod) (binCount : ℕ)
    (hbc : 0 < binCount)
    (hab : ∃ a ∈ workerValues data column, ∃ b ∈ workerValues data column, a < b) :
    (∃ bins, processHistogramData sq data column scalingMethod binCount = some bins ∧
      bins.length = binCount ∧
      (bins.map (fun b => b.originalCount)).sum = (workerValues data column).length) ∧
    ∀ v ∈ workerValues data column,
      jsBinIndex v (histMin data column) (histBinWidth data column binCount) binCount
        = some (min (max ⌊(v - histMin data column) /
              histBinWidth data column binCount⌋ 0) ((binCount : ℤ) - 1)) := by
  obtain ⟨a, ha, b, hb, hablt⟩ := hab
  have hne : workerValues data column ≠ [] := List.ne_nil_of_mem ha
  have hmin := sortAsc_head_min hne
  have hmax := sortAsc_last_max hne
  have hmnmx : histMin data column < histMax data column :=
    lt_of_le_of_lt (hmin.2 a ha) (lt_of_lt_of_le hablt (hmax.2 b hb))
  have hw : 0 < histBinWidth data column binCount :=
    div_pos (sub_pos.mpr hmnmx) (by exact_mod_cast hbc)
  have hidxfull : ∀ v ∈ workerValues data column,
      jsBinIndex v (histMin data column) (histBinWidth data column binCount) binCount
          = some (min (max ⌊(v - histMin data column) /
                histBinWidth data column binCount⌋ 0) ((binCount : ℤ) - 1)) ∧
        0 ≤ min (max ⌊(v - histMin data column) /
              histBinWidth data column binCount⌋ 0) ((binCount : ℤ) - 1) ∧
        min (max ⌊(v - histMin data column) /
              histBinWidth data column binCount⌋ 0) ((binCount : ℤ) - 1) < (binCount : ℤ) :=
    fun v hv => jsBinIndex_spec hbc hw (hmin.2 v hv)
  have hidx : ∀ v ∈ workerValues data column, ∃ i : ℤ,
      jsBinIndex v (histMin data column) (histBinWidth data column binCount) binCount
          = some i ∧ 0 ≤ i ∧ i < (binCount : ℤ) := by
    intro v hv
    obtain ⟨he, h0, hlt⟩ := hidxfull v hv
    exact ⟨_, he, h0, hlt⟩
  have hEmpty : (workerValues data column).isEmpty = false := isEmpty_false_of_ne_nil hne
  refine ⟨?_, fun v hv => (hidxfull v hv).1⟩
  rw [processHistogramData_eq sq data column scalingMethod binCount hEmpty]
  exact processHistogram_tail (histMin data column) (histBinWidth data column binCount)
    (histScaledMin sq data column scalingMethod)
    (histScaledBinWidth sq data column scalingMethod binCount) binCount scalingMethod
    (workerValues data column) (histScaledValues sq data column scalingMethod)
    (histBins0 sq data column scalingMethod binCount)
    (by unfold histBins0; rw [List.length_map, List.length_range])
    (by unfold histBins0; exact sum_originalCount_mkBins binCount _ (fun i => rfl))
    hidx

/-- Witness for C4 (amended) on the sample `[0, 10]` with 5 bins. -/
theorem c4_histogram_amended_witness :
    (0 : ℕ) < 5 ∧
    (∃ a ∈ workerValues [[("f", JSVal.num 0)], [("f", JSVal.num 10)]] "f",
      ∃ b ∈ workerValues [[("f", JSVal.num 0)], [("f", JSVal.num 10)]] "f", a < b) ∧
    ((∃ bins, processHistogramData id [[("f", JSVal.num 0)], [("f", JSVal.num 10)]] "f"
          ScalingMethod.none 5 = some bins ∧
        bins.length = 5 ∧
        (bins.map (fun b => b.originalCount)).sum
          = (workerValues [[("f", JSVal.num 0)], [("f", JSVal.num 10)]] "f").length) ∧
      ∀ v ∈ workerValues [[("f", JSVal.num 0)], [("f", JSVal.num 10)]] "f",
        jsBinIndex v (histMin [[("f", JSVal.num 0)], [("f", JSVal.num 10)]] "f")
            (histBinWidth [[("f", JSVal.num 0)], [("f", JSVal.num 10)]] "f" 5) 5
          = some (min (max ⌊(v - histMin [[("f", JSVal.num 0)], [("f", JSVal.num 10)]] "f") /
                histBinWidth [[("f", JSVal.num 0)], [("f", JSVal.num 10)]] "f" 5⌋ 0)
              ((5 : ℤ) - 1))) :=
  ⟨by decide, by decide,
   c4_histogram_amended id [[("f", JSVal.num 0)], [("f", JSVal.num 10)]] "f"
     ScalingMethod.none 5 (by decide) (by decide)⟩

/-- C4 counterexample: on the non-empty valid sample `[5]` (any constant
sample behaves the same) the bin width is `(5-5)/5 = 0`, the JavaScript bin
index is `Math.floor(0/0) = NaN`, and `bins[NaN].originalCount++` throws —
no bins are returned at all, so the claimed clamped assignment and count-sum
do not hold as stated for every non-empty valid sample. -/
theorem c4_histogram_counterexample :
    workerValues [[("f", JSVal.num 5)]] "f" = [5] ∧
    processHistogramData id [[("f", JSVal.num 5)]] "f" ScalingMethod.none 5 = none := by
  have h : workerValues [[("f", JSVal.num 5)]] "f" = [5] := by decide
  refine ⟨h, ?_⟩
  have hmn : histMin [[("f", JSVal.num 5)]] "f" = 5 := by decide
  have hmx : histMax [[("f", JSVal.num 5)]] "f" = 5 := by decide
  have hbw : histBinWidth [[("f", JSVal.num 5)]] "f" 5 = 0 := by
    rw [histBinWidth, hmx, hmn]
    norm_num
  rw [processHistogramData_eq id _ "f" ScalingMethod.none 5 (by decide), h, hmn, hbw]
  simp [countOriginal, jsBinIndex, sub_self]
